import Mathlib

/-!
Verification development for the Parallel_Life repository.

The repository implements life-like cellular automata on a toroidal 2D grid:
a rulestring parser producing birth/survival tables (`parse_rulestring`,
`fillDigits`), a table-driven generation step used by the OpenMP variant
(`invertAmazeLife_openMP_parallel_for.cpp`) and a hard-coded Conway step
(the sequential sources).  Grids are `std::vector<std::vector<uint8_t>>`;
cells are modelled as `Nat` (the uint8_t value), grids as `List (List Nat)`.
The double-buffered in-place write pass of `step(cur, nxt)` is modelled as a
fold of single-cell writes over an iteration order, followed by the
`cur.swap(nxt)` buffer-role exchange.
-/

namespace PLife

/-- A grid: `std::vector<std::vector<uint8_t>>`, rows of cell values. -/
abbrev Grid := List (List Nat)

/-- Read cell `(y, x)` of a grid (`g[y][x]`); out-of-range reads the default 0. -/
def cell (g : Grid) (y x : Nat) : Nat := (g.getD y []).getD x 0

/-- The grid has `h` rows, each of length `w` (the configured gHeight/gWidth). -/
def GridDims (g : Grid) (h w : Nat) : Prop :=
  g.length = h ∧ ∀ row ∈ g, row.length = w

/-- Every cell value is a bit (0 or 1), as produced by the program itself. -/
def BitGrid (g : Grid) : Prop := ∀ row ∈ g, ∀ v ∈ row, v ≤ 1

instance (g : Grid) (h w : Nat) : Decidable (GridDims g h w) := by
  unfold GridDims
  infer_instance

instance (g : Grid) : Decidable (BitGrid g) := by
  unfold BitGrid
  infer_instance

/-- The toroidal index computation `(i + size) % size` of the source, where
`i` is the (possibly negative) raw index such as `y + dy`. -/
def wrapIdx (n : Nat) (i : Int) : Nat := ((i + n) % (n : Int)).toNat

/-- The neighbor offset range `-1..1` iterated by the source loops. -/
def offs : List Int := [-1, 0, 1]

/-- The `neighbor_count` of the sources: sum of the 8 toroidal neighbors of
`(y, x)`, skipping `dy = dx = 0` (the `if (dy || dx)` guard). -/
def neighbor_count (g : Grid) (h w : Nat) (y x : Nat) : Nat :=
  offs.foldl (fun cnt dy =>
    offs.foldl (fun cnt2 dx =>
      if dy ≠ 0 ∨ dx ≠ 0 then
        cnt2 + cell g (wrapIdx h ((y : Int) + dy)) (wrapIdx w ((x : Int) + dx))
      else cnt2) cnt) 0

/-- The 8 neighbor offsets as the specification enumerates them:
`dy, dx ∈ {-1,0,1}` excluding `(0,0)`. -/
def specOffsets : List (Int × Int) :=
  [(-1, -1), (-1, 0), (-1, 1), (0, -1), (0, 1), (1, -1), (1, 0), (1, 1)]

/-- Neighbor count written the way the specification states it:
`Σ current[(y+dy+height)%height][(x+dx+width)%width]` over the 8 offsets. -/
def specNeighborCount (g : Grid) (h w : Nat) (y x : Nat) : Nat :=
  (specOffsets.map (fun d =>
    cell g (wrapIdx h ((y : Int) + d.1)) (wrapIdx w ((x : Int) + d.2)))).sum

/-- The wrapped row/column index one step before `i` (toroidal `i - 1`). -/
def pv (n i : Nat) : Nat := (i + n - 1) % n

/-- The wrapped row/column index one step after `i` (toroidal `i + 1`). -/
def nx (n i : Nat) : Nat := (i + 1) % n

/-- Indicator that index `i` lies in the two consecutive indices `{r, r+1}`
occupied by a 2x2 block in one dimension.  Proof infrastructure for the
still-life argument. -/
def rowInd (r i : Nat) : Nat := if i = r ∨ i = r + 1 then 1 else 0

/-- Per-cell next state of the table-driven step of
`invertAmazeLife_openMP_parallel_for.cpp`:
`nextAlive = (!alive && B[n]) || (alive && S[n])`, stored as a bool cast to
uint8_t.  The tables are uint8_t arrays indexed by the neighbor count. -/
def cellNextT (B S : List Nat) (g : Grid) (h w y x : Nat) : Nat :=
  let n := neighbor_count g h w y x
  let alive : Bool := cell g y x != 0
  let nextAlive : Bool := (!alive && (B.getD n 0 != 0)) || (alive && (S.getD n 0 != 0))
  nextAlive.toNat

/-- Per-cell next state of the hard-coded Conway step of the sequential
sources: `nxt[y][x] = (n == 3) || (cur[y][x] && n == 2)`. -/
def cellNextC (g : Grid) (h w y x : Nat) : Nat :=
  let n := neighbor_count g h w y x
  ((n == 3) || ((cell g y x != 0) && (n == 2))).toNat

/-- The grid of per-cell values `f y x` for `0 ≤ y < h`, `0 ≤ x < w`: the
mathematical result of a full per-cell pass. -/
def buildGrid (f : Nat → Nat → Nat) (h w : Nat) : Grid :=
  (List.range h).map fun y => (List.range w).map fun x => f y x

/-- The next generation under rule tables `B`/`S` as a pure function of the
current grid. -/
def computeT (B S : List Nat) (g : Grid) (h w : Nat) : Grid :=
  buildGrid (fun y x => cellNextT B S g h w y x) h w

/-- The next generation under the hard-coded Conway rule as a pure function
of the current grid. -/
def computeC (g : Grid) (h w : Nat) : Grid :=
  buildGrid (fun y x => cellNextC g h w y x) h w

/-- Single in-place cell write `g[y][x] = v` on the write buffer. -/
def setCell (g : Grid) (y x v : Nat) : Grid :=
  g.set y ((g.getD y []).set x v)

/-- A pass of single-cell writes `nxt[y][x] = f y x` performed in the order
given by the iteration list `ps` (the loop order, or a parallel schedule's
order of the disjoint per-worker writes). -/
def writeCells (f : Nat → Nat → Nat) (ps : List (Nat × Nat)) (nxt : Grid) : Grid :=
  ps.foldl (fun g p => setCell g p.1 p.2 (f p.1 p.2)) nxt

/-- Row-major iteration space of the nested `for (y) for (x)` loops, which is
also the flattened index space of `omp parallel for collapse(2)`. -/
def allPairs (h w : Nat) : List (Nat × Nat) :=
  (List.range h).flatMap fun y => (List.range w).map fun x => (y, x)

/-- The sequential write pass of the table-driven step: every cell of `nxt`
is overwritten with the next state computed from `cur`. -/
def stepTW (B S : List Nat) (cur nxt : Grid) (h w : Nat) : Grid :=
  writeCells (fun y x => cellNextT B S cur h w y x) (allPairs h w) nxt

/-- The table-driven `step(cur, nxt)`: run the write pass on `nxt`, then
`cur.swap(nxt)`.  The returned pair is (new `cur` buffer, new `nxt` buffer). -/
def stepT (B S : List Nat) (cur nxt : Grid) (h w : Nat) : Grid × Grid :=
  (stepTW B S cur nxt h w, cur)

/-- The sequential write pass of the hard-coded Conway step. -/
def stepCW (cur nxt : Grid) (h w : Nat) : Grid :=
  writeCells (fun y x => cellNextC cur h w y x) (allPairs h w) nxt

/-- The Conway `step(cur, nxt)` of the sequential sources, including the
final `cur.swap(nxt)`. -/
def stepC (cur nxt : Grid) (h w : Nat) : Grid × Grid :=
  (stepCW cur nxt h w, cur)

/-- Chunk length of OpenMP `schedule(static)` for `N` iterations and `T`
workers: `ceil(N / T)`. -/
def chunkSize (N T : Nat) : Nat := (N + T - 1) / T

/-- The static schedule: `T` contiguous chunks of `c` iterations each
(the last ones possibly short or empty). -/
def staticChunks {α : Type} : Nat → Nat → List α → List (List α)
  | 0, _, _ => []
  | T + 1, c, l => l.take c :: staticChunks T c (l.drop c)

/-- The OpenMP `parallel for collapse(2) schedule(static)` write pass with
`T` workers: worker `t` writes the cells of chunk `t`; since the writes are
disjoint and all reads go to `cur`, the pass is modelled as the writes of
all chunks in sequence. -/
def stepParT (T : Nat) (B S : List Nat) (cur nxt : Grid) (h w : Nat) : Grid :=
  writeCells (fun y x => cellNextT B S cur h w y x)
    ((staticChunks T (chunkSize (h * w) T) (allPairs h w)).flatten) nxt

/-- The Invertamaze birth table `{1,0,1,0,0,0,0,0,1}` (B028) hard-coded in
`invertAmazeLife_openMP_parallel_for.cpp`. -/
def B028 : List Nat := [1, 0, 1, 0, 0, 0, 0, 0, 1]

/-- The Invertamaze survival table `{1,1,1,0,1,0,0,0,0}` (S0124) hard-coded
in `invertAmazeLife_openMP_parallel_for.cpp`. -/
def S0124 : List Nat := [1, 1, 1, 0, 1, 0, 0, 0, 0]

/-- The `step` of `invertAmazeLife_openMP_parallel_for.cpp` with `T`
workers: parallel table-driven pass with the Invertamaze tables, then the
buffer swap. -/
def stepOMP (T : Nat) (cur nxt : Grid) (h w : Nat) : Grid × Grid :=
  (stepParT T B028 S0124 cur nxt h w, cur)

/-- The default birth table: zeros with `B[3] = 1`, as built by
`parse_rulestring` when no marker is present. -/
def defaultB : List Nat := (List.replicate 9 0).set 3 1

/-- The default survival table: zeros with `S[2] = S[3] = 1`. -/
def defaultS : List Nat := ((List.replicate 9 0).set 2 1).set 3 1

/-- The `RuleTables` struct: birth and survival tables, uint8_t arrays of
length 9 indexed by neighbor count. -/
structure RuleTables where
  B : List Nat
  S : List Nat
deriving DecidableEq, Repr

/-- The pre-scan cleanup of `parse_rulestring`: drop all spaces and commas. -/
def stripRule (rule : List Char) : List Char :=
  rule.filter fun c => c != ' ' && c != ','

/-- Marker characters that stop a digit scan: `/`, `B`, `b`, `S`, `s`. -/
def isMarker (c : Char) : Bool :=
  c == '/' || c == 'B' || c == 'b' || c == 'S' || c == 's'

/-- The `fillDigits` helper of the source: scan characters after a section marker,
setting table entries for digits 0-8, recording any other digit character
(only `9` among ASCII; `std::isdigit` accepts nothing further in the C
locale) without mutating the table, ignoring everything else, and stopping
at the next marker.  Returns the updated table and the accumulated list of
distinct invalid characters in first-seen order. -/
def fillDigits : List Char → List Nat → List Char → List Nat × List Char
  | [], arr, inv => (arr, inv)
  | c :: rest, arr, inv =>
    if isMarker c then (arr, inv)
    else if '0' ≤ c ∧ c ≤ '8' then
      fillDigits rest (arr.set (c.toNat - '0'.toNat) 1) inv
    else if '0' ≤ c ∧ c ≤ '9' then
      fillDigits rest arr (if c ∈ inv then inv else inv ++ [c])
    else fillDigits rest arr inv

/-- The `parse_rulestring` of the source: strip spaces/commas, locate the first
`B`/`b` and first `S`/`s`; with neither present return the default Conway
tables, otherwise fill each present section over zeroed tables.  The second
component is the list of invalid digit characters reported in the warning
diagnostic (empty means no diagnostic). -/
def parse_rulestring (rule : List Char) : RuleTables × List Char :=
  let r := stripRule rule
  let posB := r.findIdx? fun c => c == 'B' || c == 'b'
  let posS := r.findIdx? fun c => c == 'S' || c == 's'
  match posB, posS with
  | none, none => (⟨defaultB, defaultS⟩, [])
  | pB, pS =>
    let resB := match pB with
      | some p => fillDigits (r.drop (p + 1)) (List.replicate 9 0) []
      | none => (List.replicate 9 0, [])
    let resS := match pS with
      | some p => fillDigits (r.drop (p + 1)) (List.replicate 9 0) resB.2
      | none => (List.replicate 9 0, resB.2)
    (⟨resB.1, resS.1⟩, resS.2)

/-- The grid that is dead everywhere except a 2x2 block of live cells with
top-left corner `(r, c)`. -/
def blockGrid (h w r c : Nat) : Grid :=
  (List.range h).map fun y => (List.range w).map fun x =>
    if (y = r ∨ y = r + 1) ∧ (x = c ∨ x = c + 1) then 1 else 0

/-- The all-dead grid `Grid cur(gHeight, std::vector<uint8_t>(gWidth, 0))`. -/
def zeroGrid (h w : Nat) : Grid := List.replicate h (List.replicate w 0)

/-- The driver loop: `k` invocations of `step` on the double-buffer pair. -/
def runLoop (stepF : Grid → Grid → Grid × Grid) : Nat → Grid × Grid → Grid × Grid
  | 0, s => s
  | k + 1, s => runLoop stepF k (stepF s.1 s.2)

/-- Observable outcome of a `main` run: process exit code, whether an error
diagnostic was written to the operator, number of `step` calls executed,
and the final current grid (absent when the run aborted). -/
structure MainOut where
  exitCode : Int
  errReported : Bool
  stepsRun : Nat
  final : Option Grid
deriving Repr

/-- The sequential `main` (part_002): after argument parsing, abort with
exit code 1 and a diagnostic if `gWidth <= 0 || gHeight <= 0`, before any
grid is built or any step executes; otherwise build the buffers, install
the initial grid (the initializer is an external collaborator and is passed
in), and run `steps` steps. -/
def mainSeq (w h : Int) (init : Grid) (steps : Nat) : MainOut :=
  if w ≤ 0 ∨ h ≤ 0 then ⟨1, true, 0, none⟩
  else
    let cur := init
    let nxt := zeroGrid h.toNat w.toNat
    let fin := runLoop (fun c n => stepC c n h.toNat w.toNat) steps (cur, nxt)
    ⟨0, false, steps, some fin.1⟩

/-- The OpenMP `main` (`invertAmazeLife_openMP_parallel_for.cpp`) with `T`
worker threads: the same dimension guard, then `steps` parallel steps. -/
def mainOMP (w h : Int) (T : Nat) (init : Grid) (steps : Nat) : MainOut :=
  if w ≤ 0 ∨ h ≤ 0 then ⟨1, true, 0, none⟩
  else
    let cur := init
    let nxt := zeroGrid h.toNat w.toNat
    let fin := runLoop (fun c n => stepOMP T c n h.toNat w.toNat) steps (cur, nxt)
    ⟨0, false, steps, some fin.1⟩

end PLife
namespace PLife

theorem pv_lt (n i : Nat) (hn : 0 < n) : pv n i < n := Nat.mod_lt _ hn

theorem nx_lt (n i : Nat) (hn : 0 < n) : nx n i < n := Nat.mod_lt _ hn

theorem pv_eq (n i : Nat) (h : i < n) : pv n i = if i = 0 then n - 1 else i - 1 := by
  rcases i with _ | j
  · simp only [pv, if_pos rfl, Nat.zero_add]
    exact Nat.mod_eq_of_lt (by omega)
  · simp only [pv, if_neg (Nat.succ_ne_zero j)]
    have e : j + 1 + n - 1 = j + n := by omega
    rw [e, Nat.add_mod_right]
    exact Nat.mod_eq_of_lt (by omega)

theorem nx_eq (n i : Nat) (h : i < n) : nx n i = if i + 1 = n then 0 else i + 1 := by
  by_cases he : i + 1 = n
  · subst he
    simp [nx]
  · simp only [nx, if_neg he]
    exact Nat.mod_eq_of_lt (by omega)

theorem getD_range_map {α : Type} (f : Nat → α) (n i : Nat) (d : α) :
    ((List.range n).map f).getD i d = if i < n then f i else d := by
  rcases Nat.lt_or_ge i n with hlt | hge
  · rw [List.getD_eq_getElem _ _ (by simpa using hlt)]
    simp [hlt]
  · rw [List.getD_eq_default _ _ (by simpa using hge)]
    simp [Nat.not_lt.mpr hge]

theorem cell_buildGrid (f : Nat → Nat → Nat) (h w y x : Nat) :
    cell (buildGrid f h w) y x = if y < h ∧ x < w then f y x else 0 := by
  rw [cell, buildGrid, getD_range_map]
  by_cases hy : y < h
  · rw [if_pos hy, getD_range_map]
    by_cases hx : x < w
    · rw [if_pos hx, if_pos ⟨hy, hx⟩]
    · rw [if_neg hx, if_neg (by tauto)]
  · rw [if_neg hy, if_neg (by tauto)]
    simp

theorem dims_buildGrid (f : Nat → Nat → Nat) (h w : Nat) :
    GridDims (buildGrid f h w) h w := by
  constructor
  · simp [buildGrid]
  · intro row hrow
    simp only [buildGrid, List.mem_map] at hrow
    obtain ⟨y, _, rfl⟩ := hrow
    simp

theorem cell_le_one (g : Grid) (hb : BitGrid g) (y x : Nat) : cell g y x ≤ 1 := by
  rw [cell]
  rcases Nat.lt_or_ge y g.length with hy | hy
  · have hrow : g.getD y [] ∈ g := by
      rw [List.getD_eq_getElem _ _ hy]
      exact List.getElem_mem hy
    rcases Nat.lt_or_ge x (g.getD y []).length with hx | hx
    · rw [List.getD_eq_getElem _ _ hx]
      exact hb _ hrow _ (List.getElem_mem hx)
    · rw [List.getD_eq_default _ _ hx]
      exact Nat.zero_le 1
  · rw [List.getD_eq_default _ _ hy]
    simp
end PLife
namespace PLife

theorem getD_set' {α : Type} (l : List α) (i j : Nat) (v d : α) :
    (l.set i v).getD j d = if i = j ∧ i < l.length then v else l.getD j d := by
  simp only [List.getD, List.get?_eq_getElem?]
  by_cases hij : i = j
  · subst hij
    rcases Nat.lt_or_ge i l.length with hi | hi
    · rw [List.getElem?_set_self hi, if_pos ⟨rfl, hi⟩]
      rfl
    · rw [List.set_eq_of_length_le hi, if_neg (by omega)]
  · rw [List.getElem?_set_ne hij, if_neg (by tauto)]

theorem grid_ext (g1 g2 : Grid) (h w : Nat) (h1 : GridDims g1 h w)
    (h2 : GridDims g2 h w)
    (hc : ∀ y x, y < h → x < w → cell g1 y x = cell g2 y x) : g1 = g2 := by
  obtain ⟨hl1, hr1⟩ := h1
  obtain ⟨hl2, hr2⟩ := h2
  apply List.ext_getElem (by omega)
  intro y hy1 hy2
  have hrow1 : g1[y].length = w := hr1 _ (List.getElem_mem hy1)
  have hrow2 : g2[y].length = w := hr2 _ (List.getElem_mem hy2)
  apply List.ext_getElem (by omega)
  intro x hx1 hx2
  have := hc y x (by omega) (by omega)
  rwa [cell, cell, List.getD_eq_getElem _ _ hy1, List.getD_eq_getElem _ _ hy2,
    List.getD_eq_getElem _ _ hx1, List.getD_eq_getElem _ _ hx2] at this

theorem setCell_dims (g : Grid) (h w y x v : Nat) (hg : GridDims g h w) :
    GridDims (setCell g y x v) h w := by
  obtain ⟨hl, hr⟩ := hg
  rcases Nat.lt_or_ge y g.length with hy | hy
  · constructor
    · simp [setCell, hl]
    · intro row hrow
      rcases List.mem_or_eq_of_mem_set hrow with hmem | rfl
      · exact hr _ hmem
      · rw [List.length_set, List.getD_eq_getElem _ _ hy]
        exact hr _ (List.getElem_mem hy)
  · rw [setCell, List.set_eq_of_length_le hy]
    exact ⟨hl, hr⟩

theorem cell_setCell (g : Grid) (h w y x v : Nat) (hg : GridDims g h w) (y' x' : Nat) :
    cell (setCell g y x v) y' x' =
      if y' = y ∧ x' = x ∧ y < h ∧ x < w then v else cell g y' x' := by
  obtain ⟨hl, hr⟩ := hg
  rw [cell, setCell, getD_set']
  by_cases hy : y = y' ∧ y < g.length
  · obtain ⟨rfl, hylt⟩ := hy
    rw [if_pos ⟨rfl, hylt⟩, getD_set']
    have hrow : (g.getD y []).length = w := by
      rw [List.getD_eq_getElem _ _ hylt]
      exact hr _ (List.getElem_mem hylt)
    by_cases hx : x = x' ∧ x < (g.getD y []).length
    · obtain ⟨rfl, hxlt⟩ := hx
      rw [if_pos ⟨rfl, hxlt⟩, if_pos ⟨rfl, rfl, by omega, by omega⟩]
    · rw [hrow] at hx
      rw [if_neg (by rw [hrow]; tauto)]
      rw [if_neg (by rintro ⟨_, rfl, _, hx4⟩; exact hx ⟨rfl, hx4⟩)]
      rfl
  · rw [if_neg hy]
    rw [if_neg (by rintro ⟨rfl, _, hy3, _⟩; exact hy ⟨rfl, by omega⟩)]
    rfl

theorem writeCells_dims (f : Nat → Nat → Nat) (h w : Nat) :
    ∀ (ps : List (Nat × Nat)) (g : Grid), GridDims g h w →
      GridDims (writeCells f ps g) h w := by
  intro ps
  induction ps with
  | nil => intro g hg; exact hg
  | cons p ps ih =>
    intro g hg
    exact ih _ (setCell_dims g h w p.1 p.2 (f p.1 p.2) hg)

theorem writeCells_cell (f : Nat → Nat → Nat) (h w : Nat) :
    ∀ (ps : List (Nat × Nat)) (g : Grid), GridDims g h w → ∀ y x,
      cell (writeCells f ps g) y x =
        if (y, x) ∈ ps ∧ y < h ∧ x < w then f y x else cell g y x := by
  intro ps
  induction ps with
  | nil => intro g hg y x; simp [writeCells]
  | cons p ps ih =>
    intro g hg y x
    obtain ⟨a, b⟩ := p
    have hg' := setCell_dims g h w a b (f a b) hg
    rw [show writeCells f ((a, b) :: ps) g = writeCells f ps (setCell g a b (f a b)) from rfl,
      ih (setCell g a b (f a b)) hg' y x,
      cell_setCell g h w a b (f a b) hg y x]
    by_cases h1 : (y, x) ∈ ps ∧ y < h ∧ x < w
    · rw [if_pos h1, if_pos ⟨List.mem_cons_of_mem _ h1.1, h1.2⟩]
    · rw [if_neg h1]
      by_cases h2 : y = a ∧ x = b ∧ a < h ∧ b < w
      · obtain ⟨rfl, rfl, hah, hbw⟩ := h2
        rw [if_pos ⟨rfl, rfl, hah, hbw⟩, if_pos ⟨List.mem_cons_self _ _, hah, hbw⟩]
      · rw [if_neg h2]
        rw [if_neg ?_]
        rintro ⟨hmem, hb1, hb2⟩
        rcases List.mem_cons.mp hmem with heq | hmem'
        · obtain ⟨rfl, rfl⟩ := Prod.mk.injEq .. ▸ heq
          exact h2 ⟨rfl, rfl, hb1, hb2⟩
        · exact h1 ⟨hmem', hb1, hb2⟩

theorem allPairs_mem (h w y x : Nat) : (y, x) ∈ allPairs h w ↔ y < h ∧ x < w := by
  simp only [allPairs, List.mem_flatMap, List.mem_map, List.mem_range]
  constructor
  · rintro ⟨a, ha, b, hb, heq⟩
    obtain ⟨rfl, rfl⟩ := Prod.mk.injEq .. ▸ heq
    exact ⟨ha, hb⟩
  · rintro ⟨hy, hx⟩
    exact ⟨y, hy, x, hx, rfl⟩

theorem writeCells_pass (f : Nat → Nat → Nat) (h w : Nat) (nxt : Grid)
    (hn : GridDims nxt h w) :
    writeCells f (allPairs h w) nxt = buildGrid f h w := by
  apply grid_ext _ _ h w (writeCells_dims f h w _ nxt hn) (dims_buildGrid f h w)
  intro y x hy hx
  rw [writeCells_cell f h w _ nxt hn y x, cell_buildGrid,
    if_pos ⟨(allPairs_mem h w y x).mpr ⟨hy, hx⟩, hy, hx⟩, if_pos ⟨hy, hx⟩]

theorem flatten_staticChunks {α : Type} :
    ∀ (T c : Nat) (l : List α), l.length ≤ T * c → (staticChunks T c l).flatten = l := by
  intro T
  induction T with
  | zero =>
    intro c l hl
    have : l = [] := List.eq_nil_of_length_eq_zero (by omega)
    subst this
    rfl
  | succ T ih =>
    intro c l hl
    rw [staticChunks, List.flatten_cons, ih c (l.drop c) ?_, List.take_append_drop]
    rw [List.length_drop]
    have : (T + 1) * c = T * c + c := by ring
    omega

theorem le_mul_chunkSize (N T : Nat) (hT : 1 ≤ T) : N ≤ T * chunkSize N T := by
  rw [chunkSize]
  have h1 := Nat.div_add_mod (N + T - 1) T
  have h2 : (N + T - 1) % T < T := Nat.mod_lt _ (by omega)
  set A := T * ((N + T - 1) / T) with hA
  set r := (N + T - 1) % T with hr
  omega

theorem length_allPairs (h w : Nat) : (allPairs h w).length = h * w := by
  simp only [allPairs, List.length_flatMap]
  rw [show (List.length ∘ fun y : Nat => List.map (fun x => (y, x)) (List.range w))
      = fun _ : Nat => w from funext fun y => by simp]
  rw [List.map_const', List.sum_replicate, List.length_range, smul_eq_mul]

theorem stepParT_eq_stepTW (T : Nat) (hT : 1 ≤ T) (B S : List Nat)
    (cur nxt : Grid) (h w : Nat) :
    stepParT T B S cur nxt h w = stepTW B S cur nxt h w := by
  rw [stepParT, stepTW, flatten_staticChunks T _ _
    (by rw [length_allPairs]; exact le_mul_chunkSize (h * w) T hT)]

end PLife
namespace PLife

theorem wrapIdx_add_zero (n i : Nat) (h : i < n) : wrapIdx n ((i : Int) + 0) = i := by
  have key : ((i : Int) + 0 + n) = ((i + n : Nat) : Int) := by push_cast; ring
  rw [wrapIdx, key, ← Int.ofNat_emod, Int.toNat_natCast, Nat.add_mod_right]
  exact Nat.mod_eq_of_lt h

theorem wrapIdx_add_one (n i : Nat) (h : i < n) : wrapIdx n ((i : Int) + 1) = (i + 1) % n := by
  have key : ((i : Int) + 1 + n) = (((i + 1) + n : Nat) : Int) := by push_cast; ring
  rw [wrapIdx, key, ← Int.ofNat_emod, Int.toNat_natCast, Nat.add_mod_right]

theorem wrapIdx_add_negone (n i : Nat) (h : i < n) :
    wrapIdx n ((i : Int) + -1) = (i + n - 1) % n := by
  have key : ((i : Int) + -1 + n) = ((i + n - 1 : Nat) : Int) := by omega
  rw [wrapIdx, key, ← Int.ofNat_emod, Int.toNat_natCast]

theorem neighbor_count_unfold (g : Grid) (h w y x : Nat) :
    neighbor_count g h w y x =
      0 + cell g (wrapIdx h ((y : Int) + -1)) (wrapIdx w ((x : Int) + -1))
        + cell g (wrapIdx h ((y : Int) + -1)) (wrapIdx w ((x : Int) + 0))
        + cell g (wrapIdx h ((y : Int) + -1)) (wrapIdx w ((x : Int) + 1))
        + cell g (wrapIdx h ((y : Int) + 0)) (wrapIdx w ((x : Int) + -1))
        + cell g (wrapIdx h ((y : Int) + 0)) (wrapIdx w ((x : Int) + 1))
        + cell g (wrapIdx h ((y : Int) + 1)) (wrapIdx w ((x : Int) + -1))
        + cell g (wrapIdx h ((y : Int) + 1)) (wrapIdx w ((x : Int) + 0))
        + cell g (wrapIdx h ((y : Int) + 1)) (wrapIdx w ((x : Int) + 1)) := rfl

theorem neighbor_count_eq (g : Grid) (h w y x : Nat) (hy : y < h) (hx : x < w) :
    neighbor_count g h w y x =
      cell g (pv h y) (pv w x) + cell g (pv h y) x + cell g (pv h y) (nx w x)
        + cell g y (pv w x) + cell g y (nx w x)
        + cell g (nx h y) (pv w x) + cell g (nx h y) x + cell g (nx h y) (nx w x) := by
  rw [neighbor_count_unfold, wrapIdx_add_zero h y hy, wrapIdx_add_zero w x hx,
    wrapIdx_add_one h y hy, wrapIdx_add_one w x hx,
    wrapIdx_add_negone h y hy, wrapIdx_add_negone w x hx]
  rw [pv, pv, nx, nx]
  omega

end PLife
namespace PLife

theorem specNeighborCount_eq (g : Grid) (h w y x : Nat) :
    specNeighborCount g h w y x = neighbor_count g h w y x := by
  rw [neighbor_count_unfold]
  simp only [specNeighborCount, specOffsets, List.map_cons, List.map_nil,
    List.sum_cons, List.sum_nil]
  ring

theorem neighbor_count_le_eight (g : Grid) (hb : BitGrid g) (h w y x : Nat) :
    neighbor_count g h w y x ≤ 8 := by
  rw [neighbor_count_unfold]
  have t1 := cell_le_one g hb (wrapIdx h ((y : Int) + -1)) (wrapIdx w ((x : Int) + -1))
  have t2 := cell_le_one g hb (wrapIdx h ((y : Int) + -1)) (wrapIdx w ((x : Int) + 0))
  have t3 := cell_le_one g hb (wrapIdx h ((y : Int) + -1)) (wrapIdx w ((x : Int) + 1))
  have t4 := cell_le_one g hb (wrapIdx h ((y : Int) + 0)) (wrapIdx w ((x : Int) + -1))
  have t5 := cell_le_one g hb (wrapIdx h ((y : Int) + 0)) (wrapIdx w ((x : Int) + 1))
  have t6 := cell_le_one g hb (wrapIdx h ((y : Int) + 1)) (wrapIdx w ((x : Int) + -1))
  have t7 := cell_le_one g hb (wrapIdx h ((y : Int) + 1)) (wrapIdx w ((x : Int) + 0))
  have t8 := cell_le_one g hb (wrapIdx h ((y : Int) + 1)) (wrapIdx w ((x : Int) + 1))
  omega

theorem bool_rule_eq (a b c : Bool) : (b || (a && c)) = ((!a && b) || (a && (c || b))) := by
  cases a <;> cases b <;> cases c <;> rfl

theorem defaultB_getD (n : Nat) : (defaultB.getD n 0 != 0) = (n == 3) := by
  have e : defaultB = [0, 0, 0, 1, 0, 0, 0, 0, 0] := by decide
  rw [e]
  rcases n with _ | _ | _ | _ | _ | _ | _ | _ | _ | n <;> simp [List.getD]

theorem defaultS_getD (n : Nat) : (defaultS.getD n 0 != 0) = (n == 2 || n == 3) := by
  have e : defaultS = [0, 0, 1, 1, 0, 0, 0, 0, 0] := by decide
  rw [e]
  rcases n with _ | _ | _ | _ | _ | _ | _ | _ | _ | n <;> simp [List.getD]

theorem cellNextC_eq_default (g : Grid) (h w y x : Nat) :
    cellNextC g h w y x = cellNextT defaultB defaultS g h w y x := by
  simp only [cellNextC, cellNextT, defaultB_getD, defaultS_getD]
  congr 1
  exact bool_rule_eq (cell g y x != 0) (neighbor_count g h w y x == 3)
    (neighbor_count g h w y x == 2)

theorem computeC_eq_default (g : Grid) (h w : Nat) :
    computeC g h w = computeT defaultB defaultS g h w := by
  rw [computeC, computeT, buildGrid, buildGrid]
  apply List.map_congr_left
  intro y _
  apply List.map_congr_left
  intro x _
  exact cellNextC_eq_default g h w y x

end PLife
namespace PLife

theorem blockGrid_eq_buildGrid (h w r c : Nat) :
    blockGrid h w r c =
      buildGrid (fun y x => if (y = r ∨ y = r + 1) ∧ (x = c ∨ x = c + 1) then 1 else 0) h w :=
  rfl

theorem dims_blockGrid (h w r c : Nat) : GridDims (blockGrid h w r c) h w := by
  rw [blockGrid_eq_buildGrid]
  exact dims_buildGrid _ h w

theorem cell_blockGrid (h w r c y x : Nat) (hy : y < h) (hx : x < w) :
    cell (blockGrid h w r c) y x = rowInd r y * rowInd c x := by
  rw [blockGrid_eq_buildGrid, cell_buildGrid, if_pos ⟨hy, hx⟩]
  simp only [rowInd]
  by_cases h1 : y = r ∨ y = r + 1 <;> by_cases h2 : x = c ∨ x = c + 1 <;>
    simp [h1, h2]

theorem blockGrid_count (h w r c y x : Nat) (hy : y < h) (hx : x < w) :
    neighbor_count (blockGrid h w r c) h w y x + rowInd r y * rowInd c x =
      (rowInd r (pv h y) + rowInd r y + rowInd r (nx h y)) *
        (rowInd c (pv w x) + rowInd c x + rowInd c (nx w x)) := by
  have h0 : 0 < h := by omega
  have w0 : 0 < w := by omega
  rw [neighbor_count_eq _ _ _ _ _ hy hx,
    cell_blockGrid _ _ _ _ _ _ (pv_lt h y h0) (pv_lt w x w0),
    cell_blockGrid _ _ _ _ _ _ (pv_lt h y h0) hx,
    cell_blockGrid _ _ _ _ _ _ (pv_lt h y h0) (nx_lt w x w0),
    cell_blockGrid _ _ _ _ _ _ hy (pv_lt w x w0),
    cell_blockGrid _ _ _ _ _ _ hy (nx_lt w x w0),
    cell_blockGrid _ _ _ _ _ _ (nx_lt h y h0) (pv_lt w x w0),
    cell_blockGrid _ _ _ _ _ _ (nx_lt h y h0) hx,
    cell_blockGrid _ _ _ _ _ _ (nx_lt h y h0) (nx_lt w x w0)]
  ring

theorem rowInd_sum_of_mem (n r i : Nat) (hn : 4 ≤ n) (hr : r + 1 < n) (hi : i < n)
    (hmem : i = r ∨ i = r + 1) :
    rowInd r (pv n i) + rowInd r i + rowInd r (nx n i) = 2 := by
  rw [pv_eq n i hi, nx_eq n i hi]
  rcases hmem with rfl | rfl <;> simp only [rowInd] <;>
    split_ifs <;> (try simp_all) <;> omega

theorem rowInd_sum_le (n r i : Nat) (hn : 4 ≤ n) (hr : r + 1 < n) (hi : i < n) :
    rowInd r (pv n i) + rowInd r i + rowInd r (nx n i) ≤ 2 := by
  by_cases hmem : i = r ∨ i = r + 1
  · rw [rowInd_sum_of_mem n r i hn hr hi hmem]
  · rw [pv_eq n i hi, nx_eq n i hi]
    simp only [rowInd]
    split_ifs <;> (try simp_all) <;> omega

theorem cell_computeC (g : Grid) (h w y x : Nat) :
    cell (computeC g h w) y x = if y < h ∧ x < w then cellNextC g h w y x else 0 :=
  cell_buildGrid (fun y x => cellNextC g h w y x) h w y x

theorem cell_computeT (B S : List Nat) (g : Grid) (h w y x : Nat) :
    cell (computeT B S g h w) y x =
      if y < h ∧ x < w then cellNextT B S g h w y x else 0 :=
  cell_buildGrid (fun y x => cellNextT B S g h w y x) h w y x

theorem dims_computeC (g : Grid) (h w : Nat) : GridDims (computeC g h w) h w :=
  dims_buildGrid _ h w

theorem dims_computeT (B S : List Nat) (g : Grid) (h w : Nat) :
    GridDims (computeT B S g h w) h w :=
  dims_buildGrid _ h w

theorem computeC_blockGrid (h w r c : Nat) (hh : 4 ≤ h) (hw : 4 ≤ w)
    (hr : r + 1 < h) (hc : c + 1 < w) :
    computeC (blockGrid h w r c) h w = blockGrid h w r c := by
  apply grid_ext _ _ h w (dims_computeC _ h w) (dims_blockGrid h w r c)
  intro y x hy hx
  rw [cell_computeC, if_pos ⟨hy, hx⟩, cell_blockGrid _ _ _ _ _ _ hy hx]
  have hcount := blockGrid_count h w r c y x hy hx
  simp only [cellNextC]
  by_cases hmem : (y = r ∨ y = r + 1) ∧ (x = c ∨ x = c + 1)
  · have hA2 := rowInd_sum_of_mem h r y hh hr hy hmem.1
    have hB2 := rowInd_sum_of_mem w c x hw hc hx hmem.2
    have hown : rowInd r y * rowInd c x = 1 := by
      simp only [rowInd]
      rw [if_pos hmem.1, if_pos hmem.2]
    have hn : neighbor_count (blockGrid h w r c) h w y x = 3 := by
      rw [hA2, hB2] at hcount
      omega
    rw [hn, hown]
    simp
  · have hA2 := rowInd_sum_le h r y hh hr hy
    have hB2 := rowInd_sum_le w c x hw hc hx
    have hown : rowInd r y * rowInd c x = 0 := by
      simp only [rowInd]
      split_ifs <;> simp_all
    set A := rowInd r (pv h y) + rowInd r y + rowInd r (nx h y) with hA
    set Bc := rowInd c (pv w x) + rowInd c x + rowInd c (nx w x) with hB
    have hn : neighbor_count (blockGrid h w r c) h w y x = A * Bc := by omega
    have hne : neighbor_count (blockGrid h w r c) h w y x ≠ 3 := by
      rw [hn]
      have ha : A = 0 ∨ A = 1 ∨ A = 2 := by omega
      have hb : Bc = 0 ∨ Bc = 1 ∨ Bc = 2 := by omega
      rcases ha with h' | h' | h' <;> rcases hb with h'' | h'' | h'' <;>
        rw [h', h''] <;> norm_num
    have hcell : cell (blockGrid h w r c) y x = 0 := by
      rw [cell_blockGrid _ _ _ _ _ _ hy hx, hown]
    have hbeq : (neighbor_count (blockGrid h w r c) h w y x == 3) = false := by
      simpa using hne
    rw [hcell, hown, hbeq]
    simp

end PLife
namespace PLife

theorem runLoop_inv (stepF : Grid → Grid → Grid × Grid) (P : Grid × Grid → Prop)
    (hstep : ∀ s, P s → P (stepF s.1 s.2)) :
    ∀ (k : Nat) (s : Grid × Grid), P s → P (runLoop stepF k s) := by
  intro k
  induction k with
  | zero => intro s hs; exact hs
  | succ k ih => intro s hs; exact ih _ (hstep s hs)

theorem fillDigits_length : ∀ (s : List Char) (arr : List Nat) (inv : List Char),
    (fillDigits s arr inv).1.length = arr.length := by
  intro s
  induction s with
  | nil => intro arr inv; rfl
  | cons ch rest ih =>
    intro arr inv
    simp only [fillDigits]
    split_ifs <;> first
      | rfl
      | (rw [ih]; exact List.length_set ..)
      | exact ih ..

theorem parse_rulestring_wf (s : List Char) :
    (parse_rulestring s).1.B.length = 9 ∧ (parse_rulestring s).1.S.length = 9 := by
  rw [parse_rulestring]
  rcases hB : (stripRule s).findIdx? fun c => c == 'B' || c == 'b' with _ | pB <;>
    rcases hS : (stripRule s).findIdx? fun c => c == 'S' || c == 's' with _ | pS
  · simp [defaultB, defaultS]
  · simp [fillDigits_length]
  · simp [fillDigits_length]
  · simp [fillDigits_length]

theorem fillDigits_nodup : ∀ (s : List Char) (arr : List Nat) (inv : List Char),
    inv.Nodup → (fillDigits s arr inv).2.Nodup := by
  intro s
  induction s with
  | nil => intro arr inv hnd; exact hnd
  | cons ch rest ih =>
    intro arr inv hnd
    simp only [fillDigits]
    split_ifs with h1 h2 h3 h4
    · exact hnd
    · exact ih _ _ hnd
    · exact ih _ _ hnd
    · refine ih _ _ ?_
      simp [List.nodup_append, hnd, h4]
    · exact ih _ _ hnd

theorem parse_rulestring_nodup (s : List Char) : (parse_rulestring s).2.Nodup := by
  rw [parse_rulestring]
  rcases hB : (stripRule s).findIdx? fun c => c == 'B' || c == 'b' with _ | pB <;>
    rcases hS : (stripRule s).findIdx? fun c => c == 'S' || c == 's' with _ | pS
  · simp
  · exact fillDigits_nodup _ _ _ List.nodup_nil
  · exact fillDigits_nodup _ _ _ List.nodup_nil
  · exact fillDigits_nodup _ _ _ (fillDigits_nodup _ _ _ List.nodup_nil)

end PLife
namespace PLife

theorem toNat_bit (b : Bool) : b.toNat = 0 ∨ b.toNat = 1 := by
  cases b <;> simp

theorem cellNextT_bit (B S : List Nat) (g : Grid) (h w y x : Nat) :
    cellNextT B S g h w y x = 0 ∨ cellNextT B S g h w y x = 1 :=
  toNat_bit _

theorem cellNextC_bit (g : Grid) (h w y x : Nat) :
    cellNextC g h w y x = 0 ∨ cellNextC g h w y x = 1 :=
  toNat_bit _

/-- C1: for every grid of positive width and height with bit-valued cells and
every rule tables `B[0..8]`, `S[0..8]`, the step computes for each cell the
neighbor count by the toroidal formula of the specification (which agrees
with the source's 3x3 loop), that count stays within the table bounds, and
the cell written by the pass equals
`(not alive AND B[n]) OR (alive AND S[n])` with `alive = (current[y][x] != 0)`. -/
theorem c1_step_cell_formula (B S : List Nat) (g : Grid) (h w y x : Nat)
    (hh : 1 ≤ h) (hw : 1 ≤ w) (hg : GridDims g h w) (hb : BitGrid g)
    (hB : B.length = 9) (hS : S.length = 9) (hy : y < h) (hx : x < w) :
    specNeighborCount g h w y x = neighbor_count g h w y x ∧
    neighbor_count g h w y x ≤ 8 ∧
    cell (computeT B S g h w) y x =
      (((!(cell g y x != 0)) && (B.getD (specNeighborCount g h w y x) 0 != 0)) ||
        ((cell g y x != 0) && (S.getD (specNeighborCount g h w y x) 0 != 0))).toNat := by
  refine ⟨specNeighborCount_eq g h w y x, neighbor_count_le_eight g hb h w y x, ?_⟩
  rw [cell_computeT, if_pos ⟨hy, hx⟩, specNeighborCount_eq]
  rfl

theorem c1_step_cell_formula_witness :
    specNeighborCount [[1, 1], [1, 0]] 2 2 0 0 = neighbor_count [[1, 1], [1, 0]] 2 2 0 0 ∧
    neighbor_count [[1, 1], [1, 0]] 2 2 0 0 ≤ 8 ∧
    cell (computeT defaultB defaultS [[1, 1], [1, 0]] 2 2) 0 0 =
      (((!(cell [[1, 1], [1, 0]] 0 0 != 0)) &&
          (defaultB.getD (specNeighborCount [[1, 1], [1, 0]] 2 2 0 0) 0 != 0)) ||
        ((cell [[1, 1], [1, 0]] 0 0 != 0) &&
          (defaultS.getD (specNeighborCount [[1, 1], [1, 0]] 2 2 0 0) 0 != 0))).toNat :=
  c1_step_cell_formula defaultB defaultS [[1, 1], [1, 0]] 2 2 0 0 (by decide) (by decide)
    (by decide) (by decide) (by decide) (by decide) (by decide) (by decide)

/-- C2: the OpenMP static-schedule parallel pass with any worker count, and
more generally any pass whose write set covers exactly the grid's cells,
produces the same next grid as the sequential row-major pass; and the
hard-coded Conway step equals the table-driven step at the default tables
Birth={3}, Survive={2,3}. -/
theorem c2_strategy_equivalence (B S : List Nat) (cur nxt : Grid) (h w T : Nat)
    (hT : 1 ≤ T) (hn : GridDims nxt h w) (hb : BitGrid cur) :
    stepParT T B S cur nxt h w = stepTW B S cur nxt h w ∧
    (∀ ps : List (Nat × Nat), (∀ y x, ((y, x) ∈ ps ↔ y < h ∧ x < w)) →
      writeCells (fun y x => cellNextT B S cur h w y x) ps nxt = stepTW B S cur nxt h w) ∧
    computeC cur h w = computeT defaultB defaultS cur h w := by
  refine ⟨stepParT_eq_stepTW T hT B S cur nxt h w, ?_, computeC_eq_default cur h w⟩
  intro ps hps
  rw [stepTW, writeCells_pass _ h w nxt hn]
  apply grid_ext _ _ h w (writeCells_dims _ h w ps nxt hn) (dims_buildGrid _ h w)
  intro y x hy hx
  rw [writeCells_cell _ h w ps nxt hn, cell_buildGrid,
    if_pos ⟨(hps y x).mpr ⟨hy, hx⟩, hy, hx⟩, if_pos ⟨hy, hx⟩]

theorem c2_strategy_equivalence_witness :
    stepParT 3 B028 S0124 [[1, 0, 1], [0, 1, 0], [1, 1, 0]] (zeroGrid 3 3) 3 3 =
      stepTW B028 S0124 [[1, 0, 1], [0, 1, 0], [1, 1, 0]] (zeroGrid 3 3) 3 3 ∧
    computeC [[1, 0, 1], [0, 1, 0], [1, 1, 0]] 3 3 =
      computeT defaultB defaultS [[1, 0, 1], [0, 1, 0], [1, 1, 0]] 3 3 :=
  ⟨(c2_strategy_equivalence B028 S0124 [[1, 0, 1], [0, 1, 0], [1, 1, 0]] (zeroGrid 3 3)
      3 3 3 (by decide) (by decide) (by decide)).1,
   (c2_strategy_equivalence B028 S0124 [[1, 0, 1], [0, 1, 0], [1, 1, 0]] (zeroGrid 3 3)
      3 3 3 (by decide) (by decide) (by decide)).2.2⟩

/-- C3: the per-cell pass reads only the current buffer (its result is the
same pure function of `cur` for any prior contents of `nxt`), and after
`step` returns, the first buffer holds the newly computed generation while
the second holds the previous generation's data unchanged. -/
theorem c3_frame_and_swap (B S : List Nat) (cur nxt nxt2 : Grid) (h w : Nat)
    (hn : GridDims nxt h w) (hn2 : GridDims nxt2 h w) :
    (stepT B S cur nxt h w).1 = computeT B S cur h w ∧
    stepTW B S cur nxt h w = stepTW B S cur nxt2 h w ∧
    (stepT B S cur nxt h w).2 = cur ∧
    (stepC cur nxt h w).1 = computeC cur h w ∧
    (stepC cur nxt h w).2 = cur := by
  refine ⟨?_, ?_, rfl, ?_, rfl⟩
  · show stepTW B S cur nxt h w = computeT B S cur h w
    rw [stepTW, writeCells_pass _ h w nxt hn]
    rfl
  · rw [stepTW, stepTW, writeCells_pass _ h w nxt hn, writeCells_pass _ h w nxt2 hn2]
  · show stepCW cur nxt h w = computeC cur h w
    rw [stepCW, writeCells_pass _ h w nxt hn]
    rfl

theorem c3_frame_and_swap_witness :
    (stepT B028 S0124 [[1, 1], [0, 1]] (zeroGrid 2 2) 2 2).1 =
      computeT B028 S0124 [[1, 1], [0, 1]] 2 2 ∧
    stepTW B028 S0124 [[1, 1], [0, 1]] (zeroGrid 2 2) 2 2 =
      stepTW B028 S0124 [[1, 1], [0, 1]] [[1, 1], [1, 1]] 2 2 ∧
    (stepT B028 S0124 [[1, 1], [0, 1]] (zeroGrid 2 2) 2 2).2 = [[1, 1], [0, 1]] ∧
    (stepC [[1, 1], [0, 1]] (zeroGrid 2 2) 2 2).1 = computeC [[1, 1], [0, 1]] 2 2 ∧
    (stepC [[1, 1], [0, 1]] (zeroGrid 2 2) 2 2).2 = [[1, 1], [0, 1]] :=
  c3_frame_and_swap B028 S0124 [[1, 1], [0, 1]] (zeroGrid 2 2) [[1, 1], [1, 1]] 2 2
    (by decide) (by decide)

/-- C4: neighbor counting is toroidal: the count at `(0,0)` includes the
cell at `(h-1, w-1)`, and the wrap holds in all four directions
(top-bottom, bottom-top, left-right, right-left). -/
theorem c4_toroidal_wrap (g : Grid) (h w y x : Nat) (hh : 1 ≤ h) (hw : 1 ≤ w)
    (hy : y < h) (hx : x < w) :
    cell g (h - 1) (w - 1) ≤ neighbor_count g h w 0 0 ∧
    cell g (h - 1) x ≤ neighbor_count g h w 0 x ∧
    cell g 0 x ≤ neighbor_count g h w (h - 1) x ∧
    cell g y (w - 1) ≤ neighbor_count g h w y 0 ∧
    cell g y 0 ≤ neighbor_count g h w y (w - 1) := by
  have hpv_h : pv h 0 = h - 1 := by
    rw [pv_eq h 0 (by omega)]
    simp
  have hpv_w : pv w 0 = w - 1 := by
    rw [pv_eq w 0 (by omega)]
    simp
  have hnx_h : nx h (h - 1) = 0 := by
    rw [nx_eq h (h - 1) (by omega), if_pos (by omega)]
  have hnx_w : nx w (w - 1) = 0 := by
    rw [nx_eq w (w - 1) (by omega), if_pos (by omega)]
  refine ⟨?_, ?_, ?_, ?_, ?_⟩
  · rw [neighbor_count_eq g h w 0 0 (by omega) (by omega), hpv_h, hpv_w]
    omega
  · rw [neighbor_count_eq g h w 0 x (by omega) hx, hpv_h]
    omega
  · rw [neighbor_count_eq g h w (h - 1) x (by omega) hx, hnx_h]
    omega
  · rw [neighbor_count_eq g h w y 0 hy (by omega), hpv_w]
    omega
  · rw [neighbor_count_eq g h w y (w - 1) hy (by omega), hnx_w]
    omega

theorem c4_toroidal_wrap_witness :
    cell [[0, 0, 0], [0, 0, 0], [0, 0, 1]] 2 2 ≤
      neighbor_count [[0, 0, 0], [0, 0, 0], [0, 0, 1]] 3 3 0 0 ∧
    cell [[0, 0, 0], [0, 0, 0], [0, 0, 1]] 2 1 ≤
      neighbor_count [[0, 0, 0], [0, 0, 0], [0, 0, 1]] 3 3 0 1 ∧
    cell [[0, 0, 0], [0, 0, 0], [0, 0, 1]] 0 1 ≤
      neighbor_count [[0, 0, 0], [0, 0, 0], [0, 0, 1]] 3 3 2 1 ∧
    cell [[0, 0, 0], [0, 0, 0], [0, 0, 1]] 1 2 ≤
      neighbor_count [[0, 0, 0], [0, 0, 0], [0, 0, 1]] 3 3 1 0 ∧
    cell [[0, 0, 0], [0, 0, 0], [0, 0, 1]] 1 0 ≤
      neighbor_count [[0, 0, 0], [0, 0, 0], [0, 0, 1]] 3 3 1 2 :=
  c4_toroidal_wrap [[0, 0, 0], [0, 0, 0], [0, 0, 1]] 3 3 1 1 (by decide) (by decide)
    (by decide) (by decide)

end PLife
namespace PLife

/-- C5: the results `parse("")` and `parse("B3/S23")` yield identical rule tables,
Birth={3} and Survive={2,3} with every other entry false, and whenever
neither a B nor an S marker is found the parser returns that default
standard Game of Life rule. -/
theorem c5_default_rule :
    parse_rulestring [] = parse_rulestring ['B', '3', '/', 'S', '2', '3'] ∧
    (parse_rulestring []).1.B = [0, 0, 0, 1, 0, 0, 0, 0, 0] ∧
    (parse_rulestring []).1.S = [0, 0, 1, 1, 0, 0, 0, 0, 0] ∧
    (∀ s : List Char,
      ((stripRule s).findIdx? (fun c => c == 'B' || c == 'b') = none ∧
          (stripRule s).findIdx? (fun c => c == 'S' || c == 's') = none) →
        parse_rulestring s = (⟨defaultB, defaultS⟩, [])) := by
  refine ⟨by decide, by decide, by decide, ?_⟩
  rintro s ⟨h1, h2⟩
  simp only [parse_rulestring, h1, h2]

theorem c5_default_rule_witness :
    parse_rulestring ['x'] = (⟨defaultB, defaultS⟩, []) :=
  (c5_default_rule).2.2.2 ['x'] ⟨by decide, by decide⟩

/-- C6: parsing `"B39/S23"` yields Birth={3} with the digit 9 recorded as
invalid and not mutating any entry, Survive={2,3} set correctly, the
diagnostic listing exactly the distinct invalid characters (here `9`) in
first-seen order; and for every input the parser returns a well-formed pair
of 9-entry tables with a duplicate-free diagnostic list. -/
theorem c6_invalid_digit :
    (parse_rulestring ['B', '3', '9', '/', 'S', '2', '3']).1.B =
      [0, 0, 0, 1, 0, 0, 0, 0, 0] ∧
    (parse_rulestring ['B', '3', '9', '/', 'S', '2', '3']).1.S =
      [0, 0, 1, 1, 0, 0, 0, 0, 0] ∧
    (parse_rulestring ['B', '3', '9', '/', 'S', '2', '3']).2 = ['9'] ∧
    (∀ s : List Char, (parse_rulestring s).1.B.length = 9 ∧
      (parse_rulestring s).1.S.length = 9 ∧ (parse_rulestring s).2.Nodup) :=
  ⟨by decide, by decide, by decide, fun s =>
    ⟨(parse_rulestring_wf s).1, (parse_rulestring_wf s).2, parse_rulestring_nodup s⟩⟩

/-- C7: the parser strips spaces and commas before scanning and matches the
B/S markers case-insensitively, so `b3/s23`, `B3 / S23` and `B,3/S,2,3`
all parse to the same tables as `B3/S23`. -/
theorem c7_rulestring_tolerance :
    parse_rulestring ['b', '3', '/', 's', '2', '3'] =
      parse_rulestring ['B', '3', '/', 'S', '2', '3'] ∧
    parse_rulestring ['B', '3', ' ', '/', ' ', 'S', '2', '3'] =
      parse_rulestring ['B', '3', '/', 'S', '2', '3'] ∧
    parse_rulestring ['B', ',', '3', '/', 'S', ',', '2', ',', '3'] =
      parse_rulestring ['B', '3', '/', 'S', '2', '3'] ∧
    stripRule ['B', '3', ' ', '/', ' ', 'S', '2', '3'] = ['B', '3', '/', 'S', '2', '3'] ∧
    stripRule ['B', ',', '3', '/', 'S', ',', '2', ',', '3'] =
      ['B', '3', '/', 'S', '2', '3'] :=
  ⟨by decide, by decide, by decide, by decide, by decide⟩

/-- C8: under the default rule, a 2x2 block of live cells on an
otherwise-dead grid of size at least 4x4 is left unchanged by the step, and
by iteration it is unchanged after any number of steps. -/
theorem c8_block_still_life (h w r c : Nat) (nxt : Grid) (hh : 4 ≤ h) (hw : 4 ≤ w)
    (hr : r + 1 < h) (hc : c + 1 < w) (hn : GridDims nxt h w) :
    computeC (blockGrid h w r c) h w = blockGrid h w r c ∧
    ∀ k : Nat,
      (runLoop (fun cu nb => stepC cu nb h w) k (blockGrid h w r c, nxt)).1 =
        blockGrid h w r c := by
  have hfix := computeC_blockGrid h w r c hh hw hr hc
  refine ⟨hfix, ?_⟩
  intro k
  have hinv := runLoop_inv (fun cu nb => stepC cu nb h w)
    (fun s => s.1 = blockGrid h w r c ∧ GridDims s.2 h w) ?_ k
    (blockGrid h w r c, nxt) ⟨rfl, hn⟩
  · exact hinv.1
  · rintro ⟨cu, nb⟩ ⟨rfl, hd⟩
    refine ⟨?_, dims_blockGrid h w r c⟩
    show stepCW (blockGrid h w r c) nb h w = blockGrid h w r c
    rw [stepCW, writeCells_pass _ h w nb hd]
    exact hfix

theorem c8_block_still_life_witness :
    computeC (blockGrid 4 5 1 2) 4 5 = blockGrid 4 5 1 2 ∧
    (runLoop (fun cu nb => stepC cu nb 4 5) 3 (blockGrid 4 5 1 2, zeroGrid 4 5)).1 =
      blockGrid 4 5 1 2 :=
  ⟨(c8_block_still_life 4 5 1 2 (zeroGrid 4 5) (by decide) (by decide) (by decide)
      (by decide) (by decide)).1,
   (c8_block_still_life 4 5 1 2 (zeroGrid 4 5) (by decide) (by decide) (by decide)
      (by decide) (by decide)).2 3⟩

/-- C9: a non-positive configured width or height (such as width 0 or
height -1) is a fatal configuration error: both mains report it and return
exit code 1 without executing any step or building a final grid. -/
theorem c9_dimension_validation (w h : Int) (T : Nat) (init : Grid) (steps : Nat)
    (hbad : w ≤ 0 ∨ h ≤ 0) :
    (mainSeq w h init steps).exitCode ≠ 0 ∧
    (mainSeq w h init steps).errReported = true ∧
    (mainSeq w h init steps).stepsRun = 0 ∧
    (mainSeq w h init steps).final = none ∧
    (mainOMP w h T init steps).exitCode ≠ 0 ∧
    (mainOMP w h T init steps).errReported = true ∧
    (mainOMP w h T init steps).stepsRun = 0 ∧
    (mainOMP w h T init steps).final = none := by
  rw [mainSeq, mainOMP, if_pos hbad, if_pos hbad]
  exact ⟨by decide, rfl, rfl, rfl, by decide, rfl, rfl, rfl⟩

theorem c9_dimension_validation_witness :
    (mainSeq 0 (-1) [] 7).exitCode ≠ 0 ∧
    (mainSeq 0 (-1) [] 7).errReported = true ∧
    (mainSeq 0 (-1) [] 7).stepsRun = 0 ∧
    (mainSeq 0 (-1) [] 7).final = none ∧
    (mainOMP 0 (-1) 4 [] 7).exitCode ≠ 0 ∧
    (mainOMP 0 (-1) 4 [] 7).errReported = true ∧
    (mainOMP 0 (-1) 4 [] 7).stepsRun = 0 ∧
    (mainOMP 0 (-1) 4 [] 7).final = none :=
  c9_dimension_validation 0 (-1) 4 [] 7 (by decide)

/-- C10: stepping two same-dimension buffers preserves both buffers'
dimensions, and every cell of the newly computed generation is exactly 0 or
1 (a bool cast), even when the input generation contains other values. -/
theorem c10_step_wellformed (B S : List Nat) (cur nxt : Grid) (h w : Nat)
    (hc : GridDims cur h w) (hn : GridDims nxt h w) :
    GridDims (stepT B S cur nxt h w).1 h w ∧
    GridDims (stepT B S cur nxt h w).2 h w ∧
    (∀ row ∈ (stepT B S cur nxt h w).1, ∀ v ∈ row, v = 0 ∨ v = 1) ∧
    GridDims (stepC cur nxt h w).1 h w ∧
    GridDims (stepC cur nxt h w).2 h w ∧
    (∀ row ∈ (stepC cur nxt h w).1, ∀ v ∈ row, v = 0 ∨ v = 1) := by
  have hT : (stepT B S cur nxt h w).1 = buildGrid (fun y x => cellNextT B S cur h w y x) h w := by
    show stepTW B S cur nxt h w = _
    rw [stepTW, writeCells_pass _ h w nxt hn]
  have hC : (stepC cur nxt h w).1 = buildGrid (fun y x => cellNextC cur h w y x) h w := by
    show stepCW cur nxt h w = _
    rw [stepCW, writeCells_pass _ h w nxt hn]
  refine ⟨?_, hc, ?_, ?_, hc, ?_⟩
  · rw [hT]
    exact dims_buildGrid _ h w
  · rw [hT]
    intro row hrow v hv
    simp only [buildGrid, List.mem_map] at hrow
    obtain ⟨y, _, rfl⟩ := hrow
    simp only [List.mem_map] at hv
    obtain ⟨x, _, rfl⟩ := hv
    exact cellNextT_bit B S cur h w y x
  · rw [hC]
    exact dims_buildGrid _ h w
  · rw [hC]
    intro row hrow v hv
    simp only [buildGrid, List.mem_map] at hrow
    obtain ⟨y, _, rfl⟩ := hrow
    simp only [List.mem_map] at hv
    obtain ⟨x, _, rfl⟩ := hv
    exact cellNextC_bit cur h w y x

theorem c10_step_wellformed_witness :
    GridDims (stepT B028 S0124 [[7, 0], [2, 5]] (zeroGrid 2 2) 2 2).1 2 2 ∧
    GridDims (stepT B028 S0124 [[7, 0], [2, 5]] (zeroGrid 2 2) 2 2).2 2 2 ∧
    (∀ row ∈ (stepT B028 S0124 [[7, 0], [2, 5]] (zeroGrid 2 2) 2 2).1,
      ∀ v ∈ row, v = 0 ∨ v = 1) ∧
    GridDims (stepC [[7, 0], [2, 5]] (zeroGrid 2 2) 2 2).1 2 2 ∧
    GridDims (stepC [[7, 0], [2, 5]] (zeroGrid 2 2) 2 2).2 2 2 ∧
    (∀ row ∈ (stepC [[7, 0], [2, 5]] (zeroGrid 2 2) 2 2).1, ∀ v ∈ row, v = 0 ∨ v = 1) :=
  c10_step_wellformed B028 S0124 [[7, 0], [2, 5]] (zeroGrid 2 2) 2 2 (by decide) (by decide)

end PLife
